import Mathlib

/-!
# Verification of the Geminitext-SQL core pipeline

Shallow embedding of the CSV ingestion pipeline (`parseCSV`, `parseCSVLine`),
the table loader (`loadTableFromCSV`), the query executor (`executeSQL`), the
registered `CALC_AGE` scalar function, and the chart-type heuristic of
`SqlVisualizer`, together with proofs about the spec's claims.

Strings are handled as `List Char` (the underlying data of Lean's `String`),
JavaScript numbers as `ℚ` with exact decimal-literal semantics, and the
external collaborators (the AlaSQL engine, the JS `Date` parser, the clock)
as explicit parameters.
-/

/-- JavaScript whitespace (the characters matched by `\s` and removed by
`String.prototype.trim`, restricted to the ASCII range used here). -/
def isJsWs (c : Char) : Bool :=
  c == ' ' || c == '\t' || c == '\n' || c == '\r' || c == '\x0b' || c == '\x0c'

/-- Model of `v.trim()`: drop JS whitespace from both ends. -/
def jsTrim (l : List Char) : List Char :=
  ((l.dropWhile isJsWs).reverse.dropWhile isJsWs).reverse

/-- The comma-splitting scan of `parseCSVLine`: a `"` toggles `inQuotes`
(and is never appended to the current field), a `,` outside quotes ends the
current field, every other character is appended. -/
def scanLine (chars : List Char) (inQuotes : Bool) (current : List Char) :
    List (List Char) :=
  match chars with
  | [] => [current]
  | c :: rest =>
    if c = '"' then scanLine rest (!inQuotes) current
    else if c = ',' ∧ inQuotes = false then current :: scanLine rest inQuotes []
    else scanLine rest inQuotes (current ++ [c])

/-- Model of `.replace(/""/g, '"')`: collapse each doubled double-quote to one. -/
def unescapeQuotes : List Char → List Char
  | '"' :: '"' :: rest => '"' :: unescapeQuotes rest
  | c :: rest => c :: unescapeQuotes rest
  | [] => []

/-- Model of `s.substring(1, s.length - 1)` as JavaScript computes it: for a
one-character string the bounds `1, 0` are swapped, returning the string
itself; otherwise the first and last characters are removed. -/
def substringInner (l : List Char) : List Char :=
  if l.length = 1 then l else (l.drop 1).dropLast

/-- The per-field post-processing of `parseCSVLine`: if the trimmed field
starts and ends with `"`, strip the outer quotes and unescape doubled
quotes, else return the raw field. -/
def unquoteField (v : List Char) : List Char :=
  let trimmed := jsTrim v
  if trimmed.head? = some '"' ∧ trimmed.getLast? = some '"' then
    unescapeQuotes (substringInner trimmed)
  else v

/-- Model of `parseCSVLine(line)`: scan for comma splits with quote toggling, then
post-process each raw field. -/
def parseCSVLine (line : List Char) : List (List Char) :=
  (scanLine line false []).map unquoteField

/-! ## JavaScript number parsing (`Number(s)`), modelled over ℚ

The model covers signed decimal literals with optional fraction and
exponent — the notations the pipeline's cells use.  `Infinity` and radix
prefixes (`0x…`) are not modelled.  JS numbers are IEEE doubles; here they
are modelled as exact rationals. -/

/-- Numeric value of a list of decimal digit characters. -/
def digitsToNat (ds : List Char) : Nat :=
  ds.foldl (fun n c => 10 * n + (c.toNat - 48)) 0

/-- The rational `±(mantissaDigits) * 10 ^ e / 10 ^ fracLen`, built with a
single `mkRat` so that it evaluates in the kernel. -/
def decimalRat (neg : Bool) (mantissa fracLen : Nat) (e : Int) : ℚ :=
  let m : Int := Int.ofNat mantissa
  let num : Int := if neg then -m else m
  if 0 ≤ e then mkRat (num * Int.ofNat (10 ^ e.toNat)) (10 ^ fracLen)
  else mkRat num (10 ^ (fracLen + e.natAbs))

/-- Model of `Number(l)` on an (already trimmed) character list: `some q` when the
string is a decimal number literal, `none` when it would be `NaN`. -/
def jsNumber (l : List Char) : Option ℚ :=
  let (neg, r0) :=
    match l with
    | '+' :: r => (false, r)
    | '-' :: r => (true, r)
    | r => (false, r)
  let ip := r0.takeWhile Char.isDigit
  let r1 := r0.dropWhile Char.isDigit
  let (fp, r2) :=
    match r1 with
    | '.' :: r => (r.takeWhile Char.isDigit, r.dropWhile Char.isDigit)
    | r => (([] : List Char), r)
  if ip.length + fp.length = 0 then none
  else
    let mant := digitsToNat (ip ++ fp)
    match r2 with
    | [] => some (decimalRat neg mant fp.length 0)
    | 'e' :: r | 'E' :: r =>
      let (esign, r3) :=
        match r with
        | '+' :: r => ((1 : Int), r)
        | '-' :: r => ((-1 : Int), r)
        | r => ((1 : Int), r)
      let ed := r3.takeWhile Char.isDigit
      let r4 := r3.dropWhile Char.isDigit
      if ed ≠ [] ∧ r4 = [] then
        some (decimalRat neg mant fp.length (esign * (digitsToNat ed : Int)))
      else none
    | _ => none

/-! ## JavaScript `Date` model for the two CSV date patterns

`new Date("D-Mon-YYYY")` followed by `toISOString().split('T')[0]` is
modelled assuming a UTC runtime (local midnight = UTC midnight) and the V8
month-abbreviation parsing with its `<50 → 20yy / ≥50 → 19yy` rule for
two-digit years. -/

/-- ASCII lower-casing, as used for case-insensitive month matching. -/
def toLowerChar (c : Char) : Char :=
  if 'A' ≤ c ∧ c ≤ 'Z' then Char.ofNat (c.toNat + 32) else c

/-- Month number from a lower-cased three-letter abbreviation. -/
def monthNum (l : List Char) : Option Nat :=
  match l with
  | ['j','a','n'] => some 1
  | ['f','e','b'] => some 2
  | ['m','a','r'] => some 3
  | ['a','p','r'] => some 4
  | ['m','a','y'] => some 5
  | ['j','u','n'] => some 6
  | ['j','u','l'] => some 7
  | ['a','u','g'] => some 8
  | ['s','e','p'] => some 9
  | ['o','c','t'] => some 10
  | ['n','o','v'] => some 11
  | ['d','e','c'] => some 12
  | _ => none

/-- Gregorian leap-year test. -/
def isLeap (y : Nat) : Bool :=
  y % 4 = 0 && (y % 100 ≠ 0 || y % 400 = 0)

/-- Days in a Gregorian month. -/
def daysInMonth (m y : Nat) : Nat :=
  if m = 2 then (if isLeap y then 29 else 28)
  else if m = 4 ∨ m = 6 ∨ m = 9 ∨ m = 11 then 30
  else 31

/-- Match of the regex `^(\d{1,2})-([A-Za-z]{3})-(\d{2,4})$`, returning the
raw digit/letter groups. -/
def matchDMonY (l : List Char) : Option (List Char × List Char × List Char) :=
  let ds := l.takeWhile Char.isDigit
  let r1 := l.dropWhile Char.isDigit
  if ds.length = 0 ∨ 2 < ds.length then none
  else
    match r1 with
    | '-' :: r2 =>
      let als := r2.takeWhile Char.isAlpha
      let r3 := r2.dropWhile Char.isAlpha
      if als.length ≠ 3 then none
      else
        match r3 with
        | '-' :: r4 =>
          let ys := r4.takeWhile Char.isDigit
          let r5 := r4.dropWhile Char.isDigit
          if 2 ≤ ys.length ∧ ys.length ≤ 4 ∧ r5 = [] then some (ds, als, ys)
          else none
        | _ => none
    | _ => none

/-- The V8 year interpretation: two-digit years below 50 are 20yy, others
19yy; longer digit groups are taken literally. -/
def jsYear (ys : List Char) : Nat :=
  let y := digitsToNat ys
  if ys.length ≤ 2 then (if y < 50 then 2000 + y else 1900 + y) else y

/-- Decimal digits of `n` as characters. -/
def natChars (n : Nat) : List Char :=
  Nat.toDigits 10 n

/-- Zero-pad to two digits. -/
def pad2 (n : Nat) : List Char :=
  if n < 10 then '0' :: natChars n else natChars n

/-- Zero-pad to four digits (the year field of `toISOString`). -/
def pad4 (n : Nat) : List Char :=
  if n < 10 then '0' :: '0' :: '0' :: natChars n
  else if n < 100 then '0' :: '0' :: natChars n
  else if n < 1000 then '0' :: natChars n
  else natChars n

/-- The date part of `toISOString()`: `YYYY-MM-DD`. -/
def isoDate (y m d : Nat) : List Char :=
  pad4 y ++ '-' :: (pad2 m ++ '-' :: pad2 d)

/-- Validity and calendar value of `new Date("D-Mon-Y")` (UTC model): the and calendar value (UTC model): the
month abbreviation must be known and the day in range for that month. -/
def jsDateDMonY (ds mon ys : List Char) : Option (Nat × Nat × Nat) :=
  match monthNum (mon.map toLowerChar) with
  | some m =>
    let y := jsYear ys
    let d := digitsToNat ds
    if 1 ≤ d ∧ d ≤ daysInMonth m y then some (y, m, d) else none
  | none => none

/-- Match of the regex `^\d{1,2}\/\d{1,2}\/\d{4}$`, returning the raw digit
groups (the pieces `val.split('/')` would yield). -/
def matchSlash (l : List Char) : Option (List Char × List Char × List Char) :=
  let ds := l.takeWhile Char.isDigit
  let r1 := l.dropWhile Char.isDigit
  if ds.length = 0 ∨ 2 < ds.length then none
  else
    match r1 with
    | '/' :: r2 =>
      let ms := r2.takeWhile Char.isDigit
      let r3 := r2.dropWhile Char.isDigit
      if ms.length = 0 ∨ 2 < ms.length then none
      else
        match r3 with
        | '/' :: r4 =>
          let ys := r4.takeWhile Char.isDigit
          let r5 := r4.dropWhile Char.isDigit
          if ys.length = 4 ∧ r5 = [] then some (ds, ms, ys) else none
        | _ => none
    | _ => none

/-- Model of `s.padStart(2, '0')`. -/
def padStart2 (l : List Char) : List Char :=
  if l.length = 1 then '0' :: l else l

/-! ## Cell value inference -/

/-- A JavaScript cell value: number, string, or null. -/
inductive Value
  | num (q : ℚ)
  | str (s : List Char)
  | null
deriving DecidableEq, Repr

/-- Does the value start with a digit 6–9 (the phone-number heuristic's
`/^[6-9]/` test)? -/
def phoneStart (val : List Char) : Bool :=
  match val.head? with
  | some c => '6' ≤ c && c ≤ '9'
  | none => false

/-- The "numeric-clean" candidate: strip `%`, keep only the part before the
first `/`, trim. -/
def numericClean (val : List Char) : List Char :=
  jsTrim ((val.filter (fun c => c ≠ '%')).takeWhile (fun c => c ≠ '/'))

/-- Value inference on a trimmed cell: numeric conversion with the
phone-number exception, else the two date normalizations, else the string
itself. -/
def inferTrimmed (val : List Char) : Value :=
  match jsNumber (numericClean val) with
  | some q =>
    if val.length = 10 ∧ phoneStart val then Value.str val
    else Value.num q
  | none =>
    match matchDMonY val with
    | some (ds, mon, ys) =>
      match jsDateDMonY ds mon ys with
      | some (y, m, d) => Value.str (isoDate y m d)
      | none => Value.str val
    | none =>
      match matchSlash val with
      | some (ds, ms, ys) =>
        Value.str (ys ++ '-' :: (padStart2 ms ++ '-' :: padStart2 ds))
      | none => Value.str val

/-- Per-cell inference as `parseCSV` applies it: trim first, then infer. -/
def inferValue (s : List Char) : Value :=
  inferTrimmed (jsTrim s)

/-! ## Identifier sanitization -/

/-- A character allowed by the `[a-zA-Z0-9_]` identifier class. -/
def isWordChar (c : Char) : Bool :=
  c.isAlpha || c.isDigit || c == '_'

/-- Helper for `.replace(/\s+/g, '_')`: emit one underscore at the first
character of each whitespace run (`inRun` tracks being inside a run). -/
def replaceWsRunsAux (inRun : Bool) : List Char → List Char
  | [] => []
  | c :: rest =>
    if isJsWs c then
      if inRun then replaceWsRunsAux true rest
      else '_' :: replaceWsRunsAux true rest
    else c :: replaceWsRunsAux false rest

/-- Model of `.replace(/\s+/g, '_')`: each run of whitespace becomes one underscore. -/
def replaceWsRuns (l : List Char) : List Char :=
  replaceWsRunsAux false l

/-- Helper for `.replace(/_+/g, '_')`: emit one underscore per run. -/
def collapseUSAux (inRun : Bool) : List Char → List Char
  | [] => []
  | c :: rest =>
    if c = '_' then
      if inRun then collapseUSAux true rest
      else '_' :: collapseUSAux true rest
    else c :: collapseUSAux false rest

/-- Model of `.replace(/_+/g, '_')`: each run of underscores becomes one. -/
def collapseUnderscores (l : List Char) : List Char :=
  collapseUSAux false l

/-- No two consecutive underscores (the inputs on which underscore-run
collapsing is the identity). -/
def noDoubleUS : List Char → Bool
  | [] => true
  | [_] => true
  | a :: b :: rest => !(a == '_' && b == '_') && noDoubleUS (b :: rest)

/-- Model of the regex test `/^[0-9]/.test(l)`. -/
def headDigit (l : List Char) : Bool :=
  match l.head? with
  | some c => c.isDigit
  | none => false

/-- Table-name sanitization of `loadTableFromCSV`: whitespace runs to `_`,
every invalid character to `_`, a leading underscore if digit-leading, and
finally collapse runs of underscores. -/
def sanitizeTableName (l : List Char) : List Char :=
  let s1 := replaceWsRuns l
  let s2 := s1.map (fun c => if isWordChar c then c else '_')
  let s3 := if headDigit s2 then '_' :: s2 else s2
  collapseUnderscores s3

/-- The per-header cleanup of `parseCSV`: trim, whitespace runs to `_`,
delete invalid characters. -/
def headerClean (h : List Char) : List Char :=
  (replaceWsRuns (jsTrim h)).filter isWordChar

/-- A sanitized header before de-duplication: empty results become
`col_<i>`, digit-leading results get a leading underscore. -/
def headerName (i : Nat) (h : List Char) : List Char :=
  let clean := headerClean h
  let clean' := if clean = [] then "col_".data ++ natChars i else clean
  if headDigit clean' then '_' :: clean' else clean'

/-! ## Header de-duplication and `parseCSV` -/

/-- The `while (seenHeaders.has(uniqueName))` loop: try `clean_1`,
`clean_2`, … .  The fuel `seen.length + 1` never runs out because the
candidates are pairwise distinct and `seen` is finite. -/
def freshName (seen : List (List Char)) (clean : List Char) :
    Nat → Nat → List Char
  | counter, 0 => clean ++ '_' :: natChars counter
  | counter, fuel + 1 =>
    let cand := clean ++ '_' :: natChars counter
    if cand ∈ seen then freshName seen clean (counter + 1) fuel else cand

/-- De-duplicate one sanitized header against the already-produced ones. -/
def uniqueHeader (seen : List (List Char)) (clean : List Char) : List Char :=
  if clean ∈ seen then freshName seen clean 1 (seen.length + 1) else clean

/-- Sanitize and de-duplicate the raw header tokens, left to right. -/
def sanitizeHeadersAux : List (List Char) → Nat → List (List Char) →
    List (List Char)
  | [], _, _ => []
  | h :: rest, i, seen =>
    let name := uniqueHeader seen (headerName i h)
    name :: sanitizeHeadersAux rest (i + 1) (name :: seen)

/-- The sanitized, de-duplicated header list of a raw header row. -/
def sanitizeHeaders (raws : List (List Char)) : List (List Char) :=
  sanitizeHeadersAux raws 0 []

/-- A parsed row: sanitized column names with inferred values, in header
order (the JS object's insertion order). -/
def Row := List (List Char × Value)
deriving DecidableEq

/-- Build one row object: each header is keyed; `values[index]` is a string
when the index is in range (then trimmed and inferred) and `undefined`
otherwise (then `null`).  Walking `values` in step with `headers` realizes
the indexed lookup `values[index]` of the source. -/
def buildRow : List (List Char) → List (List Char) → Row
  | [], _ => []
  | h :: hs, vs =>
    (h, match vs.head? with
        | some v => inferValue v
        | none => Value.null) :: buildRow hs vs.tail

/-- Line-ending normalization: `\r\n` and then any remaining `\r` become `\n`. -/
def normalizeNewlines : List Char → List Char
  | [] => []
  | '\r' :: '\n' :: rest => '\n' :: normalizeNewlines rest
  | '\r' :: rest => '\n' :: normalizeNewlines rest
  | c :: rest => c :: normalizeNewlines rest

/-- The non-blank lines of the CSV text. -/
def csvLines (text : List Char) : List (List Char) :=
  ((normalizeNewlines text).splitOn '\n').filter (fun l => jsTrim l ≠ [])

/-- Parse one data line into a row, or skip it (the two `continue`s of the
row loop). -/
def parseRowLine (headers : List (List Char)) (line : List Char) :
    Option Row :=
  if jsTrim line = [] then none
  else
    let values := parseCSVLine line
    if values = [[]] then none
    else some (buildRow headers values)

/-- The sanitized header list `parseCSV` derives from the first non-blank
line (empty when there are fewer than two usable lines). -/
def csvHeaders (text : List Char) : List (List Char) :=
  match csvLines text with
  | l0 :: _ :: _ => sanitizeHeaders (parseCSVLine l0)
  | _ => []

/-- Model of `parseCSV(text)`: header sanitization plus one row object per usable
data line. -/
def parseCSV (text : List Char) : List Row :=
  match csvLines text with
  | l0 :: l1 :: rest =>
    (l1 :: rest).filterMap (parseRowLine (sanitizeHeaders (parseCSVLine l0)))
  | _ => []

/-! ## Table loader -/

/-- The AlaSQL table registry: sanitized table name to backing row data.
Modelled as a (total) lookup function mutated by replacement. -/
def TableRegistry := List Char → Option (List Row)

/-- The schema summary returned by a successful load. -/
structure TableSchema where
  tableName : List Char
  columns : List (List Char × List Char)
  rowCount : Nat
  sampleData : List Row

/-- Model of `typeof firstRow[key] === 'number' ? 'NUMBER' : 'STRING'`. -/
def typeLabel (v : Value) : List Char :=
  match v with
  | Value.num _ => "NUMBER".data
  | _ => "STRING".data

/-- Strip a leading byte-order marker (`.replace(/^﻿/, '')`). -/
def stripBOM (l : List Char) : List Char :=
  match l with
  | '﻿' :: rest => rest
  | _ => l

/-- Model of `loadTableFromCSV(tableName, csvContent)`: sanitize the name, parse the
CSV, fail on zero rows, otherwise drop-and-recreate the table with the
parsed rows as its data and derive the schema summary. -/
def loadTableFromCSV (db : TableRegistry) (tableName csvContent : List Char) :
    Except (List Char) (TableSchema × TableRegistry) :=
  let safeTableName := sanitizeTableName tableName
  let rows := parseCSV (stripBOM csvContent)
  if rows = [] then
    Except.error "CSV file is empty or could not be parsed".data
  else
    let db' : TableRegistry :=
      fun n => if n = safeTableName then some rows else db n
    let columns :=
      match rows with
      | r :: _ => r.map (fun kv => (kv.1, typeLabel kv.2))
      | [] => []
    Except.ok
      ({ tableName := safeTableName
         columns := columns
         rowCount := rows.length
         sampleData := rows.take 3 }, db')

/-! ## Query executor -/

/-- One element of an engine result array: a keyed record, or a scalar
(anything with `typeof r !== 'object'`, and `null`). -/
inductive EngineElem
  | obj (r : Row)
  | scalar (v : Value)

/-- What the engine call `db(sql)` evaluates to when it does not throw:
an array of elements, or a non-array value. -/
inductive EngineValue
  | arr (xs : List EngineElem)
  | nonArray

/-- The `QueryResult` record of the source: rows, column names, the SQL text, and an
optional captured error message. -/
structure QueryResult where
  data : List Row
  columns : List (List Char)
  sql : List Char
  error : Option (List Char) := none

/-- Normalization of one engine result element: keyed records pass
through, anything else is wrapped as `{value: r}`. -/
def normalizeElem (e : EngineElem) : Row :=
  match e with
  | EngineElem.obj r => r
  | EngineElem.scalar v => [("value".data, v)]

/-- Model of `executeSQL(sql)` with the engine as an explicit collaborator: on
success normalize rows and derive columns; on a thrown error capture the
message into `error` with empty data and columns. -/
def executeSQL (engine : List Char → Except (List Char) EngineValue)
    (sql : List Char) : QueryResult :=
  match engine sql with
  | Except.ok v =>
    let rows := match v with
      | EngineValue.arr xs => xs
      | EngineValue.nonArray => []
    let normalizedRows := rows.map normalizeElem
    let columns := match normalizedRows with
      | r :: _ => r.map Prod.fst
      | [] => []
    { data := normalizedRows, columns := columns, sql := sql, error := none }
  | Except.error msg =>
    { data := [], columns := [], sql := sql, error := some msg }

/-! ## Chart selection (`SqlVisualizer`) -/

/-- The chart the visualizer renders (or `noChart` when it bails out). -/
inductive ChartKind
  | noChart
  | pie
  | scatter
  | bar
  | line
deriving DecidableEq, Repr

/-- Lookup `data[0][key]` for a row object. -/
def lookupVal (r : Row) (k : List Char) : Option Value :=
  (List.find? (fun kv => kv.1 == k) r).map Prod.snd

/-- Test `typeof data[0][key] === 'number'`. -/
def isNumVal (v : Option Value) : Bool :=
  match v with
  | some (Value.num _) => true
  | _ => false

/-- Test `typeof data[0][key] === 'string'`. -/
def isStrVal (v : Option Value) : Bool :=
  match v with
  | some (Value.str _) => true
  | _ => false

/-- The numeric-typed column names, judged from the first row. -/
def numericColsOf (data : List Row) : List (List Char) :=
  match data with
  | [] => []
  | r0 :: _ => (r0.map Prod.fst).filter (fun k => isNumVal (lookupVal r0 k))

/-- The string-typed column names, judged from the first row. -/
def stringColsOf (data : List Row) : List (List Char) :=
  match data with
  | [] => []
  | r0 :: _ => (r0.map Prod.fst).filter (fun k => isStrVal (lookupVal r0 k))

/-- Does `needle` start `hay`? -/
def startsWithL (needle hay : List Char) : Bool :=
  match needle, hay with
  | [], _ => true
  | _ :: _, [] => false
  | a :: ns, b :: hs => a == b && startsWithL ns hs

/-- Model of `hay.includes(needle)`. -/
def containsL (needle : List Char) : List Char → Bool
  | [] => startsWithL needle []
  | c :: rest => startsWithL needle (c :: rest) || containsL needle rest

/-- The chart-type heuristic of `SqlVisualizer`, first match wins: bail
out on empty data or an error; pie for ≤ 10 rows with exactly one string
and one numeric column; scatter for exactly two numeric columns and more
than 5 rows; otherwise line when the first string column's name contains
"date" or "year" (case-insensitive), else bar. -/
def chartKindOf (result : QueryResult) : ChartKind :=
  match result.data with
  | [] => ChartKind.noChart
  | _ :: _ =>
    if result.error ≠ none then ChartKind.noChart
    else
      let numericCols := numericColsOf result.data
      let stringCols := stringColsOf result.data
      if result.data.length ≤ 10 ∧ stringCols.length = 1 ∧
          numericCols.length = 1 then ChartKind.pie
      else if numericCols.length = 2 ∧ 5 < result.data.length then
        ChartKind.scatter
      else
        let isTrend :=
          match stringCols.head? with
          | some s => containsL "date".data (s.map toLowerChar) ||
              containsL "year".data (s.map toLowerChar)
          | none => false
        if isTrend then ChartKind.line else ChartKind.bar

/-! ## The registered `CALC_AGE` scalar function

`Date.now()`, `new Date(dateStr).getTime()` and the JS `Date` string
parser are external to the repository; they enter as the parameters `now`
and `parseDate` (epoch milliseconds).  `getUTCFullYear` of an epoch
timestamp is the Gregorian civil year of `floor(ms / 86400000)` days from
1970-01-01, computed by the standard era-decomposition algorithm. -/

/-- The Gregorian civil year containing day `d`, where day 0 is
1970-01-01.  (`/` on `Int` is Euclidean division, which coincides with
floor division for the positive divisors used here.) -/
def yearFromDays (d : Int) : Int :=
  let z := d + 719468
  let era := z / 146097
  let doe := z - era * 146097
  let yoe := (doe - doe / 1460 + doe / 36524 - doe / 146096) / 365
  let y := yoe + era * 400
  let doy := doe - (365 * yoe + yoe / 4 - yoe / 100)
  let mp := (5 * doy + 2) / 153
  let m := if mp < 10 then mp + 3 else mp - 9
  if m ≤ 2 then y + 1 else y

/-- Model of `new Date(ms).getUTCFullYear()`. -/
def getUTCFullYearFromMillis (ms : Int) : Int :=
  yearFromDays (ms / 86400000)

/-- The registered scalar function: null for a falsy input, null when the
date does not parse, otherwise
`Math.abs(new Date(Date.now() - dob.getTime()).getUTCFullYear() - 1970)`. -/
def CALC_AGE (parseDate : List Char → Option Int) (now : Int)
    (dateStr : List Char) : Option Int :=
  if dateStr = [] then none
  else
    match parseDate dateStr with
    | none => none
    | some dob =>
      some ((Int.natAbs (getUTCFullYearFromMillis (now - dob) - 1970) : Nat) : Int)

/-! # Helper lemmas -/

theorem mem_of_mem_dropWhile {p : Char → Bool} {l : List Char} {x : Char}
    (h : x ∈ l.dropWhile p) : x ∈ l :=
  (List.dropWhile_sublist _).subset h

theorem mem_of_mem_jsTrim {l : List Char} {x : Char} (h : x ∈ jsTrim l) :
    x ∈ l := by
  unfold jsTrim at h
  rw [List.mem_reverse] at h
  have h2 := mem_of_mem_dropWhile h
  rw [List.mem_reverse] at h2
  exact mem_of_mem_dropWhile h2

theorem scanLine_no_quote {chars : List Char} :
    ∀ {inQ : Bool} {current : List Char}, '"' ∉ current →
      ∀ f ∈ scanLine chars inQ current, '"' ∉ f := by
  induction chars with
  | nil =>
    intro inQ current hc f hf
    simp only [scanLine, List.mem_singleton] at hf
    subst hf
    exact hc
  | cons c rest ih =>
    intro inQ current hc f hf
    simp only [scanLine] at hf
    by_cases h1 : c = '"'
    · rw [if_pos h1] at hf
      exact ih hc f hf
    · rw [if_neg h1] at hf
      by_cases h2 : c = ',' ∧ inQ = false
      · rw [if_pos h2] at hf
        rcases List.mem_cons.mp hf with h | h
        · subst h; exact hc
        · exact ih (by simp) f h
      · rw [if_neg h2] at hf
        refine ih ?_ f hf
        intro hmem
        rcases List.mem_append.mp hmem with h | h
        · exact hc h
        · rw [List.mem_singleton] at h
          exact h1 h.symm

theorem unquoteField_eq_of_no_quote {v : List Char} (h : '"' ∉ v) :
    unquoteField v = v := by
  unfold unquoteField
  have hh : (jsTrim v).head? ≠ some '"' := by
    intro hq
    have hmem : '"' ∈ jsTrim v := by
      cases hjt : jsTrim v with
      | nil => rw [hjt] at hq; simp at hq
      | cons a t =>
        rw [hjt] at hq
        simp only [List.head?_cons, Option.some.injEq] at hq
        subst hq
        exact List.mem_cons_self _ _
    exact h (mem_of_mem_jsTrim hmem)
  rw [if_neg]
  intro hc
  exact hh hc.1

/-! # Claims -/

/-- C9: for every input line, no field produced by `parseCSVLine` contains
a double-quote character: each `"` only toggles the in-quotes state and is
never appended to a field. -/
theorem parseCSVLine_no_quote (line f : List Char) (hf : f ∈ parseCSVLine line) :
    '"' ∉ f := by
  unfold parseCSVLine at hf
  rcases List.mem_map.mp hf with ⟨g, hg, rfl⟩
  have hgq : '"' ∉ g := scanLine_no_quote (by simp) g hg
  rw [unquoteField_eq_of_no_quote hgq]
  exact hgq

theorem parseCSVLine_no_quote_witness :
    "a".data ∈ parseCSVLine "a,\"b\"\"c\"".data ∧ '"' ∉ "a".data :=
  ⟨by decide, parseCSVLine_no_quote "a,\"b\"\"c\"".data "a".data (by decide)⟩

/-- C4 (failing part): a comma inside a double-quoted span is indeed kept
literal, but a doubled double-quote inside a quoted span does NOT produce a
literal quote — both quote characters merely toggle the scanner state and
are dropped, so `"a""b"` tokenizes to the field `ab`, not `a"b`. -/
theorem parseCSVLine_escaped_quote_lost :
    parseCSVLine "\"a,b\",c".data = ["a,b".data, "c".data] ∧
    parseCSVLine "\"a\"\"b\",c".data = ["ab".data, "c".data] :=
  ⟨by decide, by decide⟩

/-- C1 (failing part): a cell `"05/01/2001"` never reaches the slash-date
branch — its numeric-clean candidate is `"05"`, which parses as a number,
so the cell is stored as the number 5, not the string `"2001-01-05"`.  The
`D-Mon-YYYY` pattern works as claimed: `"17-Sep-2003"` becomes
`"2003-09-17"`. -/
theorem inferValue_slash_date_is_number :
    inferValue "05/01/2001".data = Value.num 5 ∧
    inferValue "17-Sep-2003".data = Value.str "2003-09-17".data :=
  ⟨by decide, by decide⟩

/-- C2: a cell trimming to `"86.80 %"` is stored as the number 86.8, one
trimming to `"93.44 / -----"` as the number 93.44, and one trimming to
`"9876543210"` (10 characters starting with a digit 6–9) is kept as that
string. -/
theorem inferValue_examples (c₁ c₂ c₃ : List Char)
    (h1 : jsTrim c₁ = "86.80 %".data)
    (h2 : jsTrim c₂ = "93.44 / -----".data)
    (h3 : jsTrim c₃ = "9876543210".data) :
    inferValue c₁ = Value.num 86.8 ∧
    inferValue c₂ = Value.num 93.44 ∧
    inferValue c₃ = Value.str "9876543210".data := by
  refine ⟨?_, ?_, ?_⟩
  · unfold inferValue
    rw [h1]
    have e : inferTrimmed "86.80 %".data = Value.num (mkRat 868 10) := by decide
    have eq : (mkRat 868 10 : ℚ) = 86.8 := by
      rw [Rat.mkRat_eq_div]; norm_num
    rw [e, eq]
  · unfold inferValue
    rw [h2]
    have e : inferTrimmed "93.44 / -----".data = Value.num (mkRat 9344 100) := by
      decide
    have eq : (mkRat 9344 100 : ℚ) = 93.44 := by
      rw [Rat.mkRat_eq_div]; norm_num
    rw [e, eq]
  · unfold inferValue
    rw [h3]
    decide

theorem inferValue_examples_witness :
    jsTrim "  86.80 %  ".data = "86.80 %".data ∧
    inferValue "  86.80 %  ".data = Value.num 86.8 ∧
    inferValue "93.44 / -----".data = Value.num 93.44 ∧
    inferValue "9876543210".data = Value.str "9876543210".data := by
  have h := inferValue_examples "  86.80 %  ".data "93.44 / -----".data
    "9876543210".data (by decide) (by decide) (by decide)
  exact ⟨by decide, h.1, h.2.1, h.2.2⟩

/-- C3: `executeSQL` never propagates an engine exception: when the engine
throws with message `msg`, the result is `{data: [], columns: [], sql,
error: msg}` and the `error` field is set. -/
theorem executeSQL_captures_errors
    (engine : List Char → Except (List Char) EngineValue) (sql msg : List Char)
    (h : engine sql = Except.error msg) :
    executeSQL engine sql =
      { data := [], columns := [], sql := sql, error := some msg } ∧
    (executeSQL engine sql).error ≠ none := by
  unfold executeSQL
  rw [h]
  exact ⟨rfl, by simp⟩

theorem executeSQL_captures_errors_witness :
    executeSQL (fun _ => Except.error "Parse error".data) "SELEC 1".data =
      { data := [], columns := [], sql := "SELEC 1".data,
        error := some "Parse error".data } :=
  (executeSQL_captures_errors (fun _ => Except.error "Parse error".data)
    "SELEC 1".data "Parse error".data rfl).1

theorem buildRow_map_fst (headers values : List (List Char)) :
    (buildRow headers values).map Prod.fst = headers := by
  induction headers generalizing values with
  | nil => rfl
  | cons h hs ih => simp [buildRow, ih]

theorem buildRow_get?_null (headers values : List (List Char)) (i : Nat)
    (h : values.length ≤ i) :
    (buildRow headers values).get? i =
      (headers.get? i).map (fun hd => (hd, Value.null)) := by
  induction headers generalizing values i with
  | nil => simp [buildRow]
  | cons hd hs ih =>
    cases i with
    | zero =>
      have hv : values = [] := List.length_eq_zero.mp (Nat.le_zero.mp h)
      subst hv
      simp [buildRow]
    | succ i =>
      have hlen : values.tail.length ≤ i := by
        rw [List.length_tail]; omega
      simp only [buildRow, List.get?_cons_succ]
      rw [ih values.tail i hlen]

theorem parseRowLine_eq {headers : List (List Char)} {line : List Char}
    {row : Row} (h : parseRowLine headers line = some row) :
    row = buildRow headers (parseCSVLine line) := by
  unfold parseRowLine at h
  by_cases h1 : jsTrim line = []
  · rw [if_pos h1] at h; cases h
  · rw [if_neg h1] at h
    by_cases h2 : parseCSVLine line = [[]]
    · rw [if_pos h2] at h; cases h
    · rw [if_neg h2] at h
      injection h with h
      exact h.symm

/-- C6: every row produced by `parseCSV` has exactly the sanitized,
de-duplicated header list as its key sequence in header order; and any
field index beyond the end of the row's value list is keyed with `null`. -/
theorem parseCSV_uniform_keys (text : List Char) (row : Row)
    (hrow : row ∈ parseCSV text) :
    row.map Prod.fst = csvHeaders text ∧
    ∀ headers values i, values.length ≤ i →
      (buildRow headers values).get? i =
        (headers.get? i).map (fun hd => (hd, Value.null)) := by
  constructor
  · unfold parseCSV at hrow
    unfold csvHeaders
    cases hl : csvLines text with
    | nil => rw [hl] at hrow; simp at hrow
    | cons l0 rest =>
      cases rest with
      | nil => rw [hl] at hrow; simp at hrow
      | cons l1 rest' =>
        rw [hl] at hrow
        simp only at hrow
        rcases List.mem_filterMap.mp hrow with ⟨line, _, hsome⟩
        rw [parseRowLine_eq hsome, buildRow_map_fst]
  · intro headers values i h
    exact buildRow_get?_null headers values i h

theorem parseCSV_uniform_keys_witness :
    [("a".data, Value.num 1), ("b".data, Value.null)].map Prod.fst =
      csvHeaders "a,b\n1".data ∧
    (buildRow ["h".data] []).get? 0 = some ("h".data, Value.null) := by
  have h := parseCSV_uniform_keys "a,b\n1".data
    [("a".data, Value.num 1), ("b".data, Value.null)] (by decide)
  refine ⟨h.1, ?_⟩
  rw [h.2 ["h".data] [] 0 (by decide)]
  rfl

theorem isJsWs_eq_false_of_word {c : Char} (h : isWordChar c = true) :
    isJsWs c = false := by
  cases hw : isJsWs c
  · rfl
  · exfalso
    simp only [isJsWs, Bool.or_eq_true, beq_iff_eq] at hw
    rcases hw with ((((rfl | rfl) | rfl) | rfl) | rfl) | rfl <;>
      exact absurd h (by decide)

theorem dropWhile_eq_self_of_all {p : Char → Bool} :
    ∀ l : List Char, (∀ c ∈ l, p c = false) → l.dropWhile p = l
  | [], _ => rfl
  | c :: t, h => by
    have hc : p c = false := h c (List.mem_cons_self c t)
    simp [List.dropWhile, hc]

theorem jsTrim_eq_self (l : List Char) (h : ∀ c ∈ l, isJsWs c = false) :
    jsTrim l = l := by
  unfold jsTrim
  rw [dropWhile_eq_self_of_all l h]
  rw [dropWhile_eq_self_of_all l.reverse (fun c hc =>
    h c (List.mem_reverse.mp hc))]
  exact List.reverse_reverse l

theorem replaceWsRunsAux_id :
    ∀ l : List Char, (∀ c ∈ l, isJsWs c = false) →
      replaceWsRunsAux false l = l
  | [], _ => rfl
  | c :: t, h => by
    have hc : isJsWs c = false := h c (List.mem_cons_self c t)
    have ih := replaceWsRunsAux_id t (fun d hd => h d (List.mem_cons_of_mem c hd))
    simp [replaceWsRunsAux, hc, ih]

theorem map_eq_self_of {f : Char → Char} :
    ∀ l : List Char, (∀ c ∈ l, f c = c) → l.map f = l
  | [], _ => rfl
  | c :: t, h => by
    have ih := map_eq_self_of t (fun d hd => h d (List.mem_cons_of_mem c hd))
    simp [List.map_cons, h c (List.mem_cons_self c t), ih]

theorem collapseUSAux_id :
    ∀ l : List Char, noDoubleUS l = true → collapseUSAux false l = l
  | [], _ => rfl
  | [c], _ => by
    by_cases hc : c = '_'
    · subst hc; rfl
    · simp [collapseUSAux, hc]
  | a :: b :: t, h => by
    have hs : (!(a == '_' && b == '_')) = true ∧ noDoubleUS (b :: t) = true := by
      simpa [noDoubleUS, Bool.and_eq_true] using h
    have ih := collapseUSAux_id (b :: t) hs.2
    by_cases ha : a = '_'
    · subst ha
      have hb : ¬ b = '_' := by
        intro hb
        subst hb
        simp at hs
      simp only [collapseUSAux, if_neg hb] at ih
      simp only [collapseUSAux, if_pos rfl, if_neg hb]
      rw [List.cons.injEq] at ih
      exact congrArg _ (congrArg _ ih.2)
    · simp only [collapseUSAux, if_neg ha]
      exact congrArg _ ih

/-- C7 (counterexample): table-name sanitization and header sanitization
are different functions: on `"a?b"` the former replaces the invalid
character with an underscore (`a_b`) while the latter deletes it (`ab`). -/
theorem sanitizeTableName_ne_headerName :
    sanitizeTableName "a?b".data = "a_b".data ∧
    headerName 0 "a?b".data = "ab".data ∧
    sanitizeTableName "a?b".data ≠ headerName 0 "a?b".data :=
  ⟨by decide, by decide, by decide⟩

/-- C7 (amended): the two sanitizers agree on inputs that are already
sanitized identifiers — nonempty, only `[A-Za-z0-9_]`, not digit-leading,
no two consecutive underscores — where both are the identity.  In general
they differ: table-name sanitization replaces invalid characters with
underscores and collapses underscore runs, while header sanitization
deletes invalid characters. -/
theorem sanitizers_agree_on_sanitized (s : List Char) (hne : s ≠ [])
    (hw : ∀ c ∈ s, isWordChar c = true) (hd : headDigit s = false)
    (hnd : noDoubleUS s = true) :
    sanitizeTableName s = s ∧ headerName 0 s = s := by
  have hws : ∀ c ∈ s, isJsWs c = false :=
    fun c hc => isJsWs_eq_false_of_word (hw c hc)
  have htrim : jsTrim s = s := jsTrim_eq_self s hws
  have hrw : replaceWsRuns s = s := replaceWsRunsAux_id s hws
  have hmap : s.map (fun c => if isWordChar c then c else '_') = s :=
    map_eq_self_of s (fun c hc => by rw [if_pos (hw c hc)])
  have hfil : s.filter isWordChar = s := List.filter_eq_self.mpr hw
  constructor
  · show collapseUnderscores _ = s
    simp only [sanitizeTableName, replaceWsRuns] at *
    rw [hrw, hmap, hd]
    simp only [Bool.false_eq_true, if_false]
    exact collapseUSAux_id s hnd
  · simp only [headerName, headerClean, replaceWsRuns] at *
    rw [htrim, hrw, hfil, if_neg hne, hd]
    simp

theorem sanitizers_agree_witness :
    ("Students".data ≠ [] ∧ headDigit "Students".data = false ∧
      noDoubleUS "Students".data = true) ∧
    sanitizeTableName "Students".data = "Students".data ∧
    headerName 0 "Students".data = "Students".data := by
  have h := sanitizers_agree_on_sanitized "Students".data (by decide)
    (by decide) (by decide) (by decide)
  exact ⟨⟨by decide, by decide, by decide⟩, h.1, h.2⟩

/-- C8: loading a second CSV under the same table name replaces the table:
after both loads succeed, the registry holds exactly the second file's
parsed rows under the sanitized name, the second schema's `rowCount` is
the second file's row count, and that is not the sum of both counts. -/
theorem loadTableFromCSV_replaces (db : TableRegistry) (n c1 c2 : List Char)
    (h1 : parseCSV (stripBOM c1) ≠ []) (h2 : parseCSV (stripBOM c2) ≠ []) :
    match loadTableFromCSV db n c1 with
    | Except.ok (s1, db1) =>
      match loadTableFromCSV db1 n c2 with
      | Except.ok (s2, db2) =>
        db2 (sanitizeTableName n) = some (parseCSV (stripBOM c2)) ∧
        s2.rowCount = (parseCSV (stripBOM c2)).length ∧
        s2.rowCount ≠ s1.rowCount + s2.rowCount
      | Except.error _ => False
    | Except.error _ => False := by
  have hlen : (parseCSV (stripBOM c1)).length ≠ 0 := by
    intro h
    exact h1 (List.length_eq_zero.mp h)
  simp only [loadTableFromCSV]
  rw [if_neg h1]
  dsimp only
  rw [if_neg h2]
  dsimp only
  refine ⟨by simp, rfl, ?_⟩
  omega

theorem loadTableFromCSV_replaces_witness :
    match loadTableFromCSV (fun _ => none) "t".data "a\n1".data with
    | Except.ok (s1, db1) =>
      match loadTableFromCSV db1 "t".data "a\n1\n2".data with
      | Except.ok (s2, db2) =>
        db2 (sanitizeTableName "t".data) =
          some (parseCSV (stripBOM "a\n1\n2".data)) ∧
        s2.rowCount = (parseCSV (stripBOM "a\n1\n2".data)).length ∧
        s2.rowCount ≠ s1.rowCount + s2.rowCount
      | Except.error _ => False
    | Except.error _ => False :=
  loadTableFromCSV_replaces (fun _ => none) "t".data "a\n1".data
    "a\n1\n2".data (by decide) (by decide)

/-- C5 (counterexample): four rows with a string column named `Year` and a
numeric column do NOT select a line chart — the pie branch matches first
(row count ≤ 10, exactly one string and one numeric column). -/
theorem chartKindOf_year_not_line :
    chartKindOf
      { data := [[("Year".data, Value.str "2020".data), ("Count".data, Value.num 1)],
                 [("Year".data, Value.str "2021".data), ("Count".data, Value.num 2)],
                 [("Year".data, Value.str "2022".data), ("Count".data, Value.num 3)],
                 [("Year".data, Value.str "2023".data), ("Count".data, Value.num 4)]]
        columns := ["Year".data, "Count".data]
        sql := [], error := none } ≠ ChartKind.line := by decide

/-- C5 (amended): the gender rows select pie; any error-free result with 8
rows and exactly two numeric-typed columns (typed from the first row)
selects scatter; and the four `Year` rows select pie as well, since the
pie branch matches before the line default. -/
theorem chartKindOf_selection (result : QueryResult)
    (he : result.error = none) (h8 : result.data.length = 8)
    (hn : (numericColsOf result.data).length = 2) :
    chartKindOf result = ChartKind.scatter ∧
    chartKindOf
      { data := [[("Gender".data, Value.str "F".data), ("Count".data, Value.num 5)],
                 [("Gender".data, Value.str "M".data), ("Count".data, Value.num 3)]]
        columns := ["Gender".data, "Count".data]
        sql := [], error := none } = ChartKind.pie ∧
    chartKindOf
      { data := [[("Year".data, Value.str "2020".data), ("Count".data, Value.num 1)],
                 [("Year".data, Value.str "2021".data), ("Count".data, Value.num 2)],
                 [("Year".data, Value.str "2022".data), ("Count".data, Value.num 3)],
                 [("Year".data, Value.str "2023".data), ("Count".data, Value.num 4)]]
        columns := ["Year".data, "Count".data]
        sql := [], error := none } = ChartKind.pie := by
  refine ⟨?_, by decide, by decide⟩
  unfold chartKindOf
  cases hdata : result.data with
  | nil => rw [hdata] at h8; exact absurd h8 (by decide)
  | cons r0 rest =>
    rw [hdata] at h8 hn
    dsimp only
    rw [he]
    have hpie : ¬((r0 :: rest).length ≤ 10 ∧
        (stringColsOf (r0 :: rest)).length = 1 ∧
        (numericColsOf (r0 :: rest)).length = 1) := by
      rintro ⟨-, -, hone⟩
      exact absurd (hn.symm.trans hone) (by decide)
    rw [if_neg (by simp), if_neg hpie, if_pos ⟨hn, by omega⟩]

theorem chartKindOf_selection_witness :
    chartKindOf
      { data := [[("x".data, Value.num 1), ("y".data, Value.num 2)],
                 [("x".data, Value.num 2), ("y".data, Value.num 3)],
                 [("x".data, Value.num 3), ("y".data, Value.num 4)],
                 [("x".data, Value.num 4), ("y".data, Value.num 5)],
                 [("x".data, Value.num 5), ("y".data, Value.num 6)],
                 [("x".data, Value.num 6), ("y".data, Value.num 7)],
                 [("x".data, Value.num 7), ("y".data, Value.num 8)],
                 [("x".data, Value.num 8), ("y".data, Value.num 9)]]
        columns := ["x".data, "y".data]
        sql := [], error := none } = ChartKind.scatter :=
  (chartKindOf_selection
    { data := [[("x".data, Value.num 1), ("y".data, Value.num 2)],
               [("x".data, Value.num 2), ("y".data, Value.num 3)],
               [("x".data, Value.num 3), ("y".data, Value.num 4)],
               [("x".data, Value.num 4), ("y".data, Value.num 5)],
               [("x".data, Value.num 5), ("y".data, Value.num 6)],
               [("x".data, Value.num 6), ("y".data, Value.num 7)],
               [("x".data, Value.num 7), ("y".data, Value.num 8)],
               [("x".data, Value.num 8), ("y".data, Value.num 9)]]
      columns := ["x".data, "y".data]
      sql := [], error := none } rfl (by decide) (by decide)).1

theorem yearFromDays_le_1969 (d : Int) (hd : d < 0) : yearFromDays d ≤ 1969 := by
  simp only [yearFromDays]
  set z := d + 719468 with hz
  set era := z / 146097 with hera
  set doe := z - era * 146097 with hdoe
  set yoe := (doe - doe / 1460 + doe / 36524 - doe / 146096) / 365 with hyoe
  set doy := doe - (365 * yoe + yoe / 4 - yoe / 100) with hdoy
  set mp := (5 * doy + 2) / 153 with hmp
  have hz1 : z ≤ 719467 := by omega
  have hdoe1 : 0 ≤ doe := by omega
  have hdoe2 : doe ≤ 146096 := by omega
  have hera4 : era ≤ 4 := by omega
  have hyoe1 : 0 ≤ yoe := by omega
  have hyoe2 : yoe ≤ 399 := by omega
  by_cases he : era ≤ 3
  · split_ifs <;> omega
  · have he4 : era = 4 := by omega
    have hdoe3 : doe ≤ 135079 := by omega
    have hyoe3 : yoe ≤ 369 := by omega
    split_ifs with hm <;> omega

/-- C10: the registered `CALC_AGE` function returns null for an empty
input and for any input the date parser rejects; for a parseable date it
returns `|getUTCFullYear(now - dob) - 1970|` (age in whole years by epoch
arithmetic), which is strictly positive whenever `dob` lies in the
future. -/
theorem CALC_AGE_spec (parseDate : List Char → Option Int) (now : Int)
    (s : List Char) :
    (s = [] → CALC_AGE parseDate now s = none) ∧
    (parseDate s = none → CALC_AGE parseDate now s = none) ∧
    (∀ dob, s ≠ [] → parseDate s = some dob →
      CALC_AGE parseDate now s =
        some ((Int.natAbs (getUTCFullYearFromMillis (now - dob) - 1970) : Nat) : Int) ∧
      (now < dob →
        0 < ((Int.natAbs (getUTCFullYearFromMillis (now - dob) - 1970) : Nat) : Int))) := by
  refine ⟨?_, ?_, ?_⟩
  · intro h
    unfold CALC_AGE
    rw [if_pos h]
  · intro h
    unfold CALC_AGE
    by_cases hs : s = []
    · rw [if_pos hs]
    · rw [if_neg hs, h]
  · intro dob hs hp
    constructor
    · unfold CALC_AGE
      rw [if_neg hs, hp]
    · intro hnow
      have hdays : (now - dob) / 86400000 < 0 := by omega
      have hyear : getUTCFullYearFromMillis (now - dob) ≤ 1969 := by
        unfold getUTCFullYearFromMillis
        exact yearFromDays_le_1969 _ hdays
      omega

theorem CALC_AGE_spec_witness :
    CALC_AGE (fun _ => some 86400000) 0 [] = none ∧
    CALC_AGE (fun _ => none) 0 "x".data = none ∧
    CALC_AGE (fun _ => some 86400000) 0 "2001-05-01".data = some 1 ∧
    (0 : Int) < 1 := by
  refine ⟨?_, ?_, ?_, by decide⟩
  · exact (CALC_AGE_spec (fun _ => some 86400000) 0 []).1 rfl
  · exact (CALC_AGE_spec (fun _ => none) 0 "x".data).2.1 rfl
  · have h := ((CALC_AGE_spec (fun _ => some 86400000) 0
      "2001-05-01".data).2.2 86400000 (by decide) rfl).1
    rw [h]
    decide
